import Mathlib

/-!
Verification development for the mid-valyrian interpreter
(`src/ast.rs`, `src/error.rs`, `src/interpreter.rs`, `src/parser.rs`).

Modelling conventions:
* Rust `i64` is modelled as `Int` (no claim under consideration depends on
  64-bit wrap-around), and Rust `f64` is modelled as `Rat` (no claim under
  consideration depends on rounding, infinities or NaN; the float payloads
  that occur in the claims are small literals on which `f64` arithmetic and
  comparison agree with exact rational arithmetic).
* `std::collections::HashMap<String, V>` is modelled as an association list
  with at most one binding per key; `insert` replaces an existing binding
  in place, `remove` deletes it, matching the observable `HashMap` API used
  by the interpreter (`get`, `contains_key`, `insert`, `remove`).
* Standard output is modelled as the list of prints performed, standard
  input as a list of pending lines.
-/

namespace MidValyrian

/-- Lookup in an association-list table, modelling `HashMap::get`. -/
def lookupTable {α : Type} : List (String × α) → String → Option α
  | [], _ => none
  | (k, v) :: rest, key => if k = key then some v else lookupTable rest key

/-- Insert into an association-list table, modelling `HashMap::insert`:
replaces the existing binding for the key, or appends a new one. -/
def insertTable {α : Type} : List (String × α) → String → α → List (String × α)
  | [], key, v => [(key, v)]
  | (k, w) :: rest, key, v =>
    if k = key then (key, v) :: rest else (k, w) :: insertTable rest key v

/-- Remove from an association-list table, modelling `HashMap::remove`
(the tables built by the interpreter hold at most one binding per key). -/
def removeTable {α : Type} : List (String × α) → String → List (String × α)
  | [], _ => []
  | (k, w) :: rest, key => if k = key then rest else (k, w) :: removeTable rest key

/-- `DataType` from `src/ast.rs`. -/
inductive DataType where
  | scroll
  | blade
  | wine
  | vow
  | sigil
  | void
deriving DecidableEq

/-- `BinaryOperator` from `src/ast.rs`.  Note that the *only* variants are
the eight below; in particular there are no `And`, `Or`, `GreaterEqual`,
`LessEqual`, `Equals` or `NotEquals` variants (the interpreter source
mentions such identifiers in patterns, where they act as fresh bindings). -/
inductive BinaryOperator where
  | add
  | subtract
  | multiply
  | divide
  | greater
  | less
  | equal
  | notEqual
deriving DecidableEq

/-- `BinaryOperator::from_str` from `src/ast.rs`. -/
def BinaryOperator.fromStr : String → Option BinaryOperator
  | "+" => some .add
  | "-" => some .subtract
  | "*" => some .multiply
  | "/" => some .divide
  | ">" => some .greater
  | "<" => some .less
  | "==" => some .equal
  | "!=" => some .notEqual
  | _ => none

/-- `DataType::from_str` from `src/ast.rs`. -/
def DataType.fromStr : String → Option DataType
  | "scroll" => some .scroll
  | "blade" => some .blade
  | "wine" => some .wine
  | "vow" => some .vow
  | "sigil" => some .sigil
  | "void" => some .void
  | _ => none

/-- `UnaryOperator` from `src/ast.rs`. -/
inductive UnaryOperator where
  | minus
  | not
deriving DecidableEq

/-- `Literal` from `src/ast.rs` (`f64` modelled as `Rat`). -/
inductive Literal where
  | string (s : String)
  | integer (i : Int)
  | float (f : Rat)
  | boolean (b : Bool)
  | char (c : Char)
deriving DecidableEq

/-- `Value` from `src/ast.rs` (`f64` modelled as `Rat`). -/
inductive Value where
  | string (s : String)
  | integer (i : Int)
  | float (f : Rat)
  | boolean (b : Bool)
  | char (c : Char)
  | void
deriving DecidableEq

/-- `Expression` from `src/ast.rs`. -/
inductive Expression where
  | literal (l : Literal)
  | identifier (name : String)
  | binary (left : Expression) (operator : BinaryOperator) (right : Expression)
  | unary (operator : UnaryOperator) (operand : Expression)
  | input (prompt : String)
  | functionCall (name : String) (arguments : List Expression)

/-- `Statement` from `src/ast.rs` (`Return` is spelled `ret` because
`return` is a Lean keyword). -/
inductive Statement where
  | variableDeclaration (name : String) (dataType : DataType) (value : Expression)
  | functionDeclaration (name : String) (parameters : List String)
      (body : List Statement)
  | functionCall (name : String) (arguments : List Expression)
  | assignment (name : String) (value : Expression)
  | conditional (condition : Expression) (thenBranch : List Statement)
      (elseBranch : Option (List Statement))
  | forLoop (count : Int) (body : List Statement)
  | whileLoop (condition : Expression) (body : List Statement)
  | ret (value : Option Expression)
  | speak (expression : Expression)
  | mainBlock (statements : List Statement)

/-- `ControlFlow` from `src/ast.rs` (single variant `Return`, spelled `ret`). -/
inductive ControlFlow where
  | ret (value : Value)

/-- `Program` from `src/ast.rs`. -/
structure Program where
  statements : List Statement

/-- `ValyrianError` from `src/error.rs`.  Each variant keeps the structured
payload of the Rust enum; the decorated display strings are presentation
only and are not modelled. -/
inductive ValyrianError where
  | parseError (msg : String)
  | runtimeError (msg : String)
  | undefinedVariable (name : String)
  | undefinedFunction (name : String)
  | typeError (expected : String) (found : String)
  | divisionByZero
  | ioError (msg : String)
  | syntaxError (msg : String)
  | argumentMismatch
  | invalidOperation (op : String) (leftType : String) (rightType : String)
deriving DecidableEq

/-- Structural equality of runtime values, modelling the derived
`PartialEq` on `Value` used by `l == r` in the interpreter (for floats the
`Rat` model identifies `f64` equality, which agrees on all non-NaN values). -/
def valueEq : Value → Value → Bool
  | .string a, .string b => a = b
  | .integer a, .integer b => a = b
  | .float a, .float b => a = b
  | .boolean a, .boolean b => a = b
  | .char a, .char b => a = b
  | .void, .void => true
  | _, _ => false

/-- `Interpreter::type_name` from `src/interpreter.rs` lines 326-335. -/
def typeName : Value → String
  | .integer _ => "integer"
  | .float _ => "float"
  | .string _ => "string"
  | .boolean _ => "boolean"
  | .char _ => "char"
  | .void => "void"

/-- Debug rendering of a `BinaryOperator`, modelling the derived `Debug`
used by `format!("\x7b:?\x7d", op)` in the invalid-operation fallback. -/
def binOpDebug : BinaryOperator → String
  | .add => "Add"
  | .subtract => "Subtract"
  | .multiply => "Multiply"
  | .divide => "Divide"
  | .greater => "Greater"
  | .less => "Less"
  | .equal => "Equal"
  | .notEqual => "NotEqual"

/-- Debug rendering of a `UnaryOperator` (derived `Debug`). -/
def unaryOpDebug : UnaryOperator → String
  | .minus => "Minus"
  | .not => "Not"

/-- Debug rendering of a `Value`, modelling the derived `Debug` used in the
invalid-unary-operation message (float payloads approximated by the `Rat`
rendering). -/
def valueDebug : Value → String
  | .string s => "String(\"" ++ s ++ "\")"
  | .integer i => "Integer(" ++ toString i ++ ")"
  | .float f => "Float(" ++ toString f ++ ")"
  | .boolean b => "Boolean(" ++ (if b then "true" else "false") ++ ")"
  | .char c => "Char(\x27" ++ String.singleton c ++ "\x27)"
  | .void => "Void"

/-- `Display` rendering of a `Value`, from `src/ast.rs` lines 121-132
(float payloads approximated by the `Rat` rendering). -/
def renderValue : Value → String
  | .string s => s
  | .integer i => toString i
  | .float f => toString f
  | .boolean b => if b then "aye" else "nay"
  | .char c => String.singleton c
  | .void => "void"

/-- `Interpreter::apply_binary_operator` from `src/interpreter.rs`
lines 250-306, with its *actual* match semantics.

The Rust match arms are translated in source order.  Crucially, the
identifiers `And`, `Or`, `GreaterEqual`, `LessEqual`, `Equals` and
`NotEquals` used in the source patterns are **not** variants of
`BinaryOperator` (`src/ast.rs` defines `Equal`/`NotEqual` and no
logical/compound comparators at all), so Rust resolves each of them as a
fresh variable binding that matches *any* operator:
* `(And, Boolean, Boolean)` matches every operator applied to two
  booleans and yields `l && r`; the `Or` arm is therefore unreachable;
* `(GreaterEqual, Integer, Integer)` matches every remaining operator
  applied to two integers (after the arithmetic, `Greater` and `Less`
  arms, that is exactly `Equal` and `NotEqual`) and yields `l >= r`;
  the `LessEqual` arm is therefore unreachable;
* `(Equals, l, r)` matches *everything* that reaches it and yields the
  structural equality `l == r`; the `NotEquals` arm and the final
  invalid-operation fallback are therefore unreachable, and the function
  never returns `InvalidOperation`.
Unreachable arms are omitted below (Lean rejects redundant match arms);
the division-by-zero guard of the float arm is rendered as an `if`. -/
def applyBinaryOperator (op : BinaryOperator) (left right : Value) :
    Except ValyrianError Value :=
  match op, left, right with
  | .add, .integer l, .integer r => .ok (.integer (l + r))
  | .add, .float l, .float r => .ok (.float (l + r))
  | .add, .string l, .string r => .ok (.string (l ++ r))
  | .add, .integer l, .float r => .ok (.float ((l : Rat) + r))
  | .add, .float l, .integer r => .ok (.float (l + (r : Rat)))
  | .subtract, .integer l, .integer r => .ok (.integer (l - r))
  | .subtract, .float l, .float r => .ok (.float (l - r))
  | .subtract, .integer l, .float r => .ok (.float ((l : Rat) - r))
  | .subtract, .float l, .integer r => .ok (.float (l - (r : Rat)))
  | .multiply, .integer l, .integer r => .ok (.integer (l * r))
  | .multiply, .float l, .float r => .ok (.float (l * r))
  | .multiply, .integer l, .float r => .ok (.float ((l : Rat) * r))
  | .multiply, .float l, .integer r => .ok (.float (l * (r : Rat)))
  | .divide, _, .integer 0 => .error .divisionByZero
  | .divide, .integer l, .integer r => .ok (.integer (Int.tdiv l r))
  | .divide, .float l, .float r =>
    if r = 0 then .error .divisionByZero else .ok (.float (l / r))
  | .divide, .integer l, .float r =>
    if r = 0 then .error .divisionByZero else .ok (.float ((l : Rat) / r))
  | .divide, .float l, .integer r => .ok (.float (l / (r : Rat)))
  | .divide, l, .float r =>
    if r = 0 then .error .divisionByZero else .ok (.boolean (valueEq l (.float r)))
  | _, .boolean l, .boolean r => .ok (.boolean (l && r))
  | .greater, .integer l, .integer r => .ok (.boolean (decide (l > r)))
  | .less, .integer l, .integer r => .ok (.boolean (decide (l < r)))
  | _, .integer l, .integer r => .ok (.boolean (decide (l ≥ r)))
  | _, l, r => .ok (.boolean (valueEq l r))

/-- `Interpreter::apply_unary_operator` from `src/interpreter.rs`
lines 308-324. -/
def applyUnaryOperator (op : UnaryOperator) (operand : Value) :
    Except ValyrianError Value :=
  match op, operand with
  | .minus, .integer n => .ok (.integer (-n))
  | .minus, .float f => .ok (.float (-f))
  | .not, .boolean b => .ok (.boolean (!b))
  | _, _ =>
    .error (.parseError
      ("Invalid unary operation: " ++ unaryOpDebug op ++ " on " ++ valueDebug operand))

/-- Interpreter state: the two `HashMap`s owned by `Interpreter`
(`variables`, `functions`) plus the modelled I/O streams (pending stdin
lines and the prints performed so far).  The `debug` flag only adds trace
printing and is modelled as `false` (no semantic effect). -/
structure InterpState where
  vars : List (String × Value)
  functions : List (String × (List String × List Statement))
  input : List String
  output : List String

/-- Result of one interpreter step: `none` models exhaustion of the fuel
that bounds call depth and while-loop iterations (the Rust functions are
partial); otherwise the `Result` value together with the interpreter state
at that point (on `Err`, the state in which the error was raised, since the
Rust `?` returns leaving `self` as it was). -/
abbrev Res (α : Type) := Option (Except ValyrianError α × InterpState)

/-- Sequencing of interpreter steps, modelling Rust `?`: errors (and fuel
exhaustion) propagate, successes continue with the updated state. -/
def bindRes {α β : Type} (x : Res α) (k : α → InterpState → Res β) : Res β :=
  match x with
  | none => none
  | some (.error e, st) => some (.error e, st)
  | some (.ok a, st) => k a st

/-- Update the variable table, modelling `self.vars.insert`. -/
def setVar (st : InterpState) (name : String) (v : Value) : InterpState :=
  { st with vars := insertTable st.vars name v }

/-- The parameter snapshot taken by `call_function` (lines 174-177):
for every parameter name, its prior value in the variable table, if any. -/
def snapshotParams (params : List String) (st : InterpState) :
    List (String × Option Value) :=
  params.map fun p => (p, lookupTable st.vars p)

/-- The restore loop of `call_function` (lines 186-195 and 200-209):
each snapshot entry is written back (re-inserted, or removed if the
parameter had no prior binding). -/
def restoreParams (oldVars : List (String × Option Value)) (st : InterpState) :
    InterpState :=
  oldVars.foldl
    (fun acc entry =>
      match entry.2 with
      | some v => { acc with vars := insertTable acc.vars entry.1 v }
      | none => { acc with vars := removeTable acc.vars entry.1 })
    st

/-- The fixed prompt printed by the input expression
(`src/interpreter.rs` line 240). -/
def inputPrompt : String := "🗣️ Speak your words: "

/-- `Literal` to `Value` conversion from `evaluate_expression`
(lines 216-223). -/
def literalValue : Literal → Value
  | .string s => .string s
  | .integer i => .integer i
  | .float f => .float f
  | .boolean b => .boolean b
  | .char c => .char c

mutual

/-- `Interpreter::evaluate_expression` from `src/interpreter.rs`
lines 214-248.  The input expression prints the prompt and consumes one
stdin line (an empty stream models EOF, where `read_line` succeeds with an
empty buffer); genuine I/O failures of stdout/stdin are environmental and
not modelled. -/
def evaluateExpression (fuel : Nat) (st : InterpState) (e : Expression) :
    Res Value :=
  match e with
  | .literal l => some (.ok (literalValue l), st)
  | .identifier name =>
    match lookupTable st.vars name with
    | some v => some (.ok v, st)
    | none => some (.error (.undefinedVariable name), st)
  | .binary left op right =>
    bindRes (evaluateExpression fuel st left) fun lv st1 =>
      bindRes (evaluateExpression fuel st1 right) fun rv st2 =>
        match applyBinaryOperator op lv rv with
        | .ok v => some (.ok v, st2)
        | .error err => some (.error err, st2)
  | .unary op operand =>
    bindRes (evaluateExpression fuel st operand) fun v st1 =>
      match applyUnaryOperator op v with
      | .ok w => some (.ok w, st1)
      | .error err => some (.error err, st1)
  | .input _ =>
    match st.input with
    | [] =>
      some (.ok (.string "".trim),
        { st with output := st.output ++ [inputPrompt] })
    | line :: rest =>
      some (.ok (.string line.trim),
        { st with output := st.output ++ [inputPrompt], input := rest })
  | .functionCall name args => callFunction fuel st name args
termination_by (fuel, 3 * sizeOf e, 0)

/-- The argument-binding loop of `call_function` (lines 179-182): evaluate
each argument in turn and bind the corresponding parameter into the global
variable table before evaluating the next argument. -/
def bindArguments (fuel : Nat) (st : InterpState) (params : List String)
    (args : List Expression) : Res Unit :=
  match params, args with
  | p :: ps, a :: rest =>
    bindRes (evaluateExpression fuel st a) fun v st1 =>
      bindArguments fuel (setVar st1 p v) ps rest
  | _, _ => some (.ok (), st)
termination_by (fuel, 3 * sizeOf args + 1, 0)

/-- `Interpreter::call_function` from `src/interpreter.rs` lines 160-212:
look the function up, check the argument count, snapshot the parameters,
bind the arguments, run the body (one fuel level deeper), restore the
parameter snapshot and produce the returned value (or void on
fall-through). -/
def callFunction (fuel : Nat) (st : InterpState) (name : String)
    (args : List Expression) : Res Value :=
  match lookupTable st.functions name with
  | none => some (.error (.undefinedFunction name), st)
  | some (params, body) =>
    if args.length ≠ params.length then
      some (.error .argumentMismatch, st)
    else
      let oldVars := snapshotParams params st
      bindRes (bindArguments fuel st params args) fun _ stA =>
        match fuel with
        | 0 => none
        | f + 1 =>
          bindRes (executeStatements f stA body) fun flow stB =>
            match flow with
            | some (.ret v) => some (.ok v, restoreParams oldVars stB)
            | none => some (.ok Value.void, restoreParams oldVars stB)
termination_by (fuel, 3 * sizeOf args + 2, 0)

/-- `Interpreter::execute_statement` from `src/interpreter.rs`
lines 49-158.  Returns the optional control-flow signal.  The branch
selection of the conditional (lines 94-102) is rendered as a direct
two-way split (Rust materialises `branch : Option<&Vec<Statement>>`
first); the `for`/`while` loops are delegated to `runForLoop` and a
fuel-guarded re-execution of the whole while statement, which performs
exactly the Rust iteration. -/
def executeStatement (fuel : Nat) (st : InterpState) (s : Statement) :
    Res (Option ControlFlow) :=
  match s with
  | .ret none => some (.ok (some (.ret Value.void)), st)
  | .ret (some e) =>
    bindRes (evaluateExpression fuel st e) fun v st1 =>
      some (.ok (some (.ret v)), st1)
  | .variableDeclaration name _ value =>
    bindRes (evaluateExpression fuel st value) fun v st1 =>
      some (.ok none, setVar st1 name v)
  | .assignment name value =>
    match lookupTable st.vars name with
    | none => some (.error (.undefinedVariable name), st)
    | some _ =>
      bindRes (evaluateExpression fuel st value) fun v st1 =>
        some (.ok none, setVar st1 name v)
  | .functionCall name args =>
    bindRes (callFunction fuel st name args) fun _ st1 =>
      some (.ok none, st1)
  | .conditional condition thenBranch elseBranch =>
    bindRes (evaluateExpression fuel st condition) fun cv st1 =>
      match cv with
      | .boolean b =>
        if b then executeStatements fuel st1 thenBranch
        else
          match elseBranch with
          | some stmts => executeStatements fuel st1 stmts
          | none => some (.ok none, st1)
      | other => some (.error (.typeError "boolean" (typeName other)), st1)
  | .forLoop count body => runForLoop fuel st count.toNat body
  | .whileLoop condition body =>
    match fuel with
    | 0 => none
    | f + 1 =>
      bindRes (evaluateExpression (f + 1) st condition) fun cv st1 =>
        match cv with
        | .boolean true =>
          bindRes (executeStatements (f + 1) st1 body) fun flow st2 =>
            match flow with
            | some fl => some (.ok (some fl), st2)
            | none => executeStatement f st2 (.whileLoop condition body)
        | .boolean false => some (.ok none, st1)
        | other => some (.error (.typeError "boolean" (typeName other)), st1)
  | .speak e =>
    bindRes (evaluateExpression fuel st e) fun v st1 =>
      some (.ok none, { st1 with output := st1.output ++ [renderValue v] })
  | .mainBlock statements => executeStatements fuel st statements
  | .functionDeclaration _ _ _ => some (.ok none, st)
termination_by (fuel, 3 * sizeOf s, 0)

/-- The nested statement loop used by conditional branches, loop bodies
and main blocks (for example lines 96-101, 148-154): run the statements
in order, returning the first control-flow signal immediately. -/
def executeStatements (fuel : Nat) (st : InterpState) (l : List Statement) :
    Res (Option ControlFlow) :=
  match l with
  | [] => some (.ok none, st)
  | s :: rest =>
    bindRes (executeStatement fuel st s) fun flow st1 =>
      match flow with
      | some fl => some (.ok (some fl), st1)
      | none => executeStatements fuel st1 rest
termination_by (fuel, 3 * sizeOf l, 0)

/-- The counted-loop iteration of `execute_statement` (lines 106-115):
`for _ in 0..count` runs the body `count.toNat` times, aborting on the
first control-flow signal. -/
def runForLoop (fuel : Nat) (st : InterpState) (n : Nat)
    (body : List Statement) : Res (Option ControlFlow) :=
  match n with
  | 0 => some (.ok none, st)
  | m + 1 =>
    bindRes (executeStatements fuel st body) fun flow st1 =>
      match flow with
      | some fl => some (.ok (some fl), st1)
      | none => runForLoop fuel st1 m body
termination_by (fuel, 3 * sizeOf body, n)

end

/-- The function-registration pass of `Interpreter::interpret`
(lines 26-30): insert every top-level function declaration into the
function table. -/
def registerFunctions (fns : List (String × (List String × List Statement))) :
    List Statement → List (String × (List String × List Statement))
  | [] => fns
  | .functionDeclaration name params body :: rest =>
    registerFunctions (insertTable fns name (params, body)) rest
  | _ :: rest => registerFunctions fns rest

/-- The inner loop of `interpret` over a top-level main block
(lines 34-38): each statement is executed with `?`, which propagates
errors but *discards* any control-flow signal, so execution continues
with the remaining statements of the block. -/
def runTopMainBlock (fuel : Nat) (st : InterpState) :
    List Statement → Res Unit
  | [] => some (.ok (), st)
  | s :: rest =>
    bindRes (executeStatement fuel st s) fun _ st1 =>
      runTopMainBlock fuel st1 rest

/-- The execution pass of `interpret` (lines 32-44): main blocks run
their nested statements (discarding control-flow signals), function
declarations are skipped, every other statement executes directly (its
control-flow signal likewise discarded by `?`). -/
def runTopStatements (fuel : Nat) (st : InterpState) :
    List Statement → Res Unit
  | [] => some (.ok (), st)
  | s :: rest =>
    match s with
    | .mainBlock statements =>
      bindRes (runTopMainBlock fuel st statements) fun _ st1 =>
        runTopStatements fuel st1 rest
    | .functionDeclaration _ _ _ => runTopStatements fuel st rest
    | other =>
      bindRes (executeStatement fuel st other) fun _ st1 =>
        runTopStatements fuel st1 rest

/-- `Interpreter::interpret` from `src/interpreter.rs` lines 21-47:
register all top-level function declarations, then execute the top-level
statements in source order. -/
def interpret (fuel : Nat) (st : InterpState) (p : Program) : Res Unit :=
  runTopStatements fuel
    { st with functions := registerFunctions st.functions p.statements }
    p.statements

/-- The state of a freshly constructed `Interpreter` (both tables empty)
with a given stdin stream. -/
def initialState (stdin : List String) : InterpState :=
  { vars := [], functions := [], input := stdin, output := [] }

/-!
Parse-tree model for `parse_expression` (`src/parser.rs` lines 196-326).

The grammar layer (pest and `mid_valyrian.pest`) is external to the
repository sources: `parse_expression` consumes the typed pairs it
produces.  `PExpr` models exactly the pair shapes consumed by
`parse_expression`: a `binary_expr` pair flattens to a first operand
followed by alternating operator tokens and operand pairs, a `unary_expr`
pair starts with an optional `unary_op` token, and the leaf rules carry
their matched text.
-/

/-- Model of the pest pairs consumed by `parse_expression`; one
constructor per `Rule` case handled there. -/
inductive PExpr where
  | expression (inner : PExpr)
  | binaryExpr (first : PExpr) (rest : List (String × PExpr))
  | unaryExpr (op : Option String) (operand : PExpr)
  | primary (inner : PExpr)
  | stringLit (raw : String)
  | integerLit (raw : String)
  | floatLit (raw : String)
  | booleanLit (raw : String)
  | charLit (raw : String)
  | identifier (name : String)
  | inputNode (name : String)

/-- Modelled from the spec: integer tokens are parsed "with the platform's
standard numeric parser" (`str::parse::<i64>`, external to the
repository); decimal strings are modelled exactly, 64-bit overflow is
not. -/
def parseI64 (s : String) : Option Int := s.toInt?

/-- Modelled from the spec: float tokens are parsed "with the platform's
standard numeric parser" (`str::parse::<f64>`, external to the
repository); plain decimal forms `[-]digits[.digits]` are modelled as
exact rationals, exponents and rounding are not. -/
def parseF64 (s : String) : Option Rat :=
  let neg := s.startsWith "-"
  let t := if neg then s.drop 1 else s
  let signed : Rat → Rat := fun q => if neg then -q else q
  match t.splitOn "." with
  | [i] => (i.toNat?).map fun n => signed n
  | [i, f] =>
    match i.toNat?, f.toNat? with
    | some ni, some nf =>
      some (signed ((ni : Rat) + (nf : Rat) / ((10 : Rat) ^ f.length)))
    | _, _ => none
  | _ => none

/-- `trim_matches('"')` as used on string literals: strip all leading and
trailing double quotes. -/
def trimQuotes (s : String) : String :=
  ⟨((s.toList.dropWhile (· = '"')).reverse.dropWhile (· = '"')).reverse⟩

mutual

/-- `parse_expression` from `src/parser.rs` lines 196-326 over the
parse-tree model.  The commented-out first version of the `unary_expr`
arm in the source is ignored; the active arm (lines 238-269) is
modelled. -/
def parseExpression (p : PExpr) : Except ValyrianError Expression :=
  match p with
  | .expression inner => parseExpression inner
  | .binaryExpr first rest =>
    match parseExpression first with
    | .error e => .error e
    | .ok left => parseBinaryChain left rest
  | .unaryExpr (some opStr) operand =>
    match opStr with
    | "-" =>
      match parseExpression operand with
      | .error e => .error e
      | .ok inner => .ok (.unary .minus inner)
    | "!" =>
      match parseExpression operand with
      | .error e => .error e
      | .ok inner => .ok (.unary .not inner)
    | _ => .error (.parseError ("Unknown unary operator: " ++ opStr))
  | .unaryExpr none operand => parseExpression operand
  | .primary inner => parseExpression inner
  | .stringLit raw => .ok (.literal (.string (trimQuotes raw)))
  | .integerLit raw =>
    match parseI64 raw.trim with
    | some i => .ok (.literal (.integer i))
    | none => .error (.parseError ("Invalid integer: " ++ raw))
  | .floatLit raw =>
    match parseF64 raw.trim with
    | some f => .ok (.literal (.float f))
    | none => .error (.parseError ("Invalid float: " ++ raw))
  | .booleanLit raw =>
    match raw with
    | "aye" => .ok (.literal (.boolean true))
    | "nay" => .ok (.literal (.boolean false))
    | _ => .error (.parseError ("Invalid boolean: " ++ raw))
  | .charLit raw =>
    match raw.toList with
    | _ :: c :: _ :: _ => .ok (.literal (.char c))
    | _ => .error (.parseError "Invalid character literal")
  | .identifier name => .ok (.identifier name)
  | .inputNode name => .ok (.input name)
termination_by (sizeOf p, 0)

/-- The operator/operand chain loop of the `binary_expr` arm
(`src/parser.rs` lines 200-217): repeatedly consume an operator token and
the next operand, folding to the left. -/
def parseBinaryChain (left : Expression) (rest : List (String × PExpr)) :
    Except ValyrianError Expression :=
  match rest with
  | [] => .ok left
  | (opStr, operandNode) :: more =>
    match BinaryOperator.fromStr opStr with
    | none => .error (.parseError ("Unknown binary operator: " ++ opStr))
    | some op =>
      match parseExpression operandNode with
      | .error e => .error e
      | .ok right => parseBinaryChain (.binary left op right) more
termination_by (sizeOf rest, 1)

end

/-!
Basic lemmas about the association-list tables.
-/

theorem lookupTable_insertTable_self {α : Type} (t : List (String × α))
    (k : String) (v : α) : lookupTable (insertTable t k v) k = some v := by
  induction t with
  | nil => simp [insertTable, lookupTable]
  | cons hd tl ih =>
    obtain ⟨k', w⟩ := hd
    by_cases h : k' = k
    · simp [insertTable, h, lookupTable]
    · simp [insertTable, h, lookupTable, ih]

theorem lookupTable_insertTable_ne {α : Type} (t : List (String × α))
    (k k' : String) (v : α) (h : k ≠ k') :
    lookupTable (insertTable t k v) k' = lookupTable t k' := by
  induction t with
  | nil => simp [insertTable, lookupTable, h]
  | cons hd tl ih =>
    obtain ⟨k0, w⟩ := hd
    by_cases h0 : k0 = k
    · subst h0
      simp [insertTable, lookupTable, h]
    · simp [insertTable, h0, lookupTable, ih]

theorem lookupTable_removeTable_ne {α : Type} (t : List (String × α))
    (k k' : String) (h : k ≠ k') :
    lookupTable (removeTable t k) k' = lookupTable t k' := by
  induction t with
  | nil => simp [removeTable]
  | cons hd tl ih =>
    obtain ⟨k0, w⟩ := hd
    by_cases h0 : k0 = k
    · subst h0
      simp [removeTable, lookupTable, h]
    · simp [removeTable, h0, lookupTable, ih]

/-- Well-formedness of a table: at most one binding per key.  Every table
reachable from an actual `HashMap` satisfies this. -/
def WFTable {α : Type} (t : List (String × α)) : Prop :=
  (t.map Prod.fst).Nodup

theorem mem_keys_insertTable {α : Type} (t : List (String × α))
    (k x : String) (v : α) :
    x ∈ (insertTable t k v).map Prod.fst ↔ x = k ∨ x ∈ t.map Prod.fst := by
  induction t with
  | nil => simp [insertTable]
  | cons hd tl ih =>
    obtain ⟨k0, w⟩ := hd
    by_cases h0 : k0 = k
    · subst h0
      simp [insertTable]
    · simp only [insertTable, if_neg h0, List.map_cons, List.mem_cons, ih]
      tauto

theorem WFTable_insertTable {α : Type} (t : List (String × α))
    (k : String) (v : α) (h : WFTable t) : WFTable (insertTable t k v) := by
  induction t with
  | nil => simp [insertTable, WFTable]
  | cons hd tl ih =>
    obtain ⟨k0, w⟩ := hd
    simp only [WFTable, List.map_cons, List.nodup_cons] at h
    by_cases h0 : k0 = k
    · subst h0
      simp only [insertTable, if_pos rfl, WFTable, List.map_cons]
      exact List.nodup_cons.mpr ⟨h.1, h.2⟩
    · simp only [insertTable, if_neg h0, WFTable, List.map_cons,
        List.nodup_cons]
      refine ⟨?_, ih h.2⟩
      intro hmem
      rcases (mem_keys_insertTable tl k k0 v).mp hmem with h1 | h1
      · exact h0 h1
      · exact h.1 h1

theorem lookupTable_eq_none_of_not_mem {α : Type} (t : List (String × α))
    (k : String) (h : k ∉ t.map Prod.fst) : lookupTable t k = none := by
  induction t with
  | nil => rfl
  | cons hd tl ih =>
    obtain ⟨k0, w⟩ := hd
    simp only [List.map_cons, List.mem_cons, not_or] at h
    have hne : ¬(k0 = k) := fun hc => h.1 hc.symm
    simp only [lookupTable, if_neg hne]
    exact ih h.2

theorem lookupTable_removeTable_self {α : Type} (t : List (String × α))
    (k : String) (h : WFTable t) : lookupTable (removeTable t k) k = none := by
  induction t with
  | nil => simp [removeTable, lookupTable]
  | cons hd tl ih =>
    obtain ⟨k0, w⟩ := hd
    simp only [WFTable, List.map_cons, List.nodup_cons] at h
    by_cases h0 : k0 = k
    · subst h0
      simp only [removeTable, if_pos rfl]
      exact lookupTable_eq_none_of_not_mem tl k0 h.1
    · simp [removeTable, h0, lookupTable, ih h.2]

theorem WFTable_removeTable {α : Type} (t : List (String × α))
    (k : String) (h : WFTable t) : WFTable (removeTable t k) := by
  induction t with
  | nil => simp [removeTable, WFTable]
  | cons hd tl ih =>
    obtain ⟨k0, w⟩ := hd
    simp only [WFTable, List.map_cons, List.nodup_cons] at h
    by_cases h0 : k0 = k
    · subst h0
      simpa [removeTable, WFTable] using h.2
    · simp only [removeTable, if_neg h0, WFTable, List.map_cons,
        List.nodup_cons]
      refine ⟨?_, ih h.2⟩
      intro hmem
      exact h.1 (by
        clear ih h
        induction tl with
        | nil => simp [removeTable] at hmem
        | cons hd2 tl2 ih2 =>
          obtain ⟨k2, w2⟩ := hd2
          by_cases h2 : k2 = k
          · subst h2
            simp only [removeTable, if_pos rfl] at hmem
            exact List.mem_cons_of_mem _ hmem
          · simp only [removeTable, if_neg h2, List.map_cons,
              List.mem_cons] at hmem
            rcases hmem with h3 | h3
            · simp [h3]
            · exact List.mem_cons_of_mem _ (ih2 h3))

/-!
Preservation invariant: no interpreter step ever writes the function
table, and all of them keep the variable table well-formed.
-/

/-- Preservation invariant relating a pre-state to a post-state: the
function table is unchanged and well-formedness of the variable table is
preserved. -/
def StatePres (st0 st1 : InterpState) : Prop :=
  st1.functions = st0.functions ∧ (WFTable st0.vars → WFTable st1.vars)

theorem StatePres.refl (st : InterpState) : StatePres st st := ⟨Eq.refl _, id⟩

theorem StatePres.trans {st0 st1 st2 : InterpState}
    (h1 : StatePres st0 st1) (h2 : StatePres st1 st2) : StatePres st0 st2 :=
  ⟨h2.1.trans h1.1, fun hw => h2.2 (h1.2 hw)⟩

/-- Every post-state of an interpreter step satisfies the preservation
invariant with respect to the pre-state. -/
def ResPres {α : Type} (st0 : InterpState) (m : Res α) : Prop :=
  ∀ out st1, m = some (out, st1) → StatePres st0 st1

theorem ResPres.fuelOut {α : Type} (st0 : InterpState) :
    ResPres st0 (none : Res α) := by
  intro out st1 h
  exact absurd h (by simp)

theorem ResPres.pure {α : Type} {st0 st1 : InterpState}
    (r : Except ValyrianError α) (h : StatePres st0 st1) :
    ResPres st0 (some (r, st1)) := by
  intro out st2 heq
  obtain ⟨rfl, rfl⟩ := (by simpa using heq : r = out ∧ st1 = st2)
  exact h

theorem ResPres.bind {α β : Type} {st0 : InterpState} {x : Res α}
    {k : α → InterpState → Res β} (hx : ResPres st0 x)
    (hk : ∀ a st1, x = some (.ok a, st1) → ResPres st1 (k a st1)) :
    ResPres st0 (bindRes x k) := by
  intro out st2 h
  cases hxe : x with
  | none =>
    rw [hxe] at h
    simp [bindRes] at h
  | some pr =>
    obtain ⟨r, stx⟩ := pr
    cases r with
    | error e =>
      rw [hxe] at h
      simp only [bindRes] at h
      obtain ⟨rfl, rfl⟩ := (by simpa using h : (Except.error e : Except ValyrianError β) = out ∧ stx = st2)
      exact hx _ _ hxe
    | ok a =>
      rw [hxe] at h
      simp only [bindRes] at h
      exact (hx _ _ hxe).trans (hk a stx hxe out st2 h)

theorem StatePres.setVar {st0 st1 : InterpState} (h : StatePres st0 st1)
    (name : String) (v : Value) : StatePres st0 (setVar st1 name v) :=
  ⟨h.1, fun hw => WFTable_insertTable _ _ _ (h.2 hw)⟩

theorem StatePres.restoreParams {st0 st1 : InterpState} (h : StatePres st0 st1)
    (oldVars : List (String × Option Value)) :
    StatePres st0 (restoreParams oldVars st1) := by
  induction oldVars generalizing st1 with
  | nil => exact h
  | cons entry rest ih =>
    obtain ⟨p, w⟩ := entry
    cases w with
    | some v =>
      exact ih (h.trans ⟨Eq.refl _, fun hw => WFTable_insertTable _ _ _ hw⟩)
    | none =>
      exact ih (h.trans ⟨Eq.refl _, fun hw => WFTable_removeTable _ _ hw⟩)


theorem ResPres.weaken {α : Type} {st0 st1 : InterpState} {m : Res α}
    (hp : StatePres st0 st1) (hm : ResPres st1 m) : ResPres st0 m :=
  fun out st2 h => hp.trans (hm out st2 h)

theorem StatePres.outputOnly {st0 st1 : InterpState} (h : StatePres st0 st1)
    (out : List String) (inp : List String) :
    StatePres st0 { st1 with output := out, input := inp } :=
  ⟨h.1, h.2⟩

set_option maxHeartbeats 1000000

theorem execPreservation :
    (∀ fuel st e, ResPres st (evaluateExpression fuel st e)) ∧
    (∀ fuel st name args, ResPres st (callFunction fuel st name args)) ∧
    (∀ fuel st l, ResPres st (executeStatements fuel st l)) ∧
    (∀ fuel st s, ResPres st (executeStatement fuel st s)) ∧
    (∀ fuel st n body, ResPres st (runForLoop fuel st n body)) ∧
    (∀ fuel st params args, ResPres st (bindArguments fuel st params args)) := by
  apply evaluateExpression.mutual_induct
    (fun fuel st e => ResPres st (evaluateExpression fuel st e))
    (fun fuel st name args => ResPres st (callFunction fuel st name args))
    (fun fuel st l => ResPres st (executeStatements fuel st l))
    (fun fuel st s => ResPres st (executeStatement fuel st s))
    (fun fuel st n body => ResPres st (runForLoop fuel st n body))
    (fun fuel st params args => ResPres st (bindArguments fuel st params args))
  -- literal
  · intro fuel st l
    simp only [evaluateExpression]
    exact ResPres.pure _ (StatePres.refl st)
  -- identifier, bound
  · intro fuel st name v hlook
    simp only [evaluateExpression, hlook]
    exact ResPres.pure _ (StatePres.refl st)
  -- identifier, unbound
  · intro fuel st name hlook
    simp only [evaluateExpression, hlook]
    exact ResPres.pure _ (StatePres.refl st)
  -- binary
  · intro fuel st left op right ihl ihr
    simp only [evaluateExpression]
    refine ResPres.bind ihl fun lv st1 _ => ?_
    refine ResPres.bind (ihr st1) fun rv st2 _ => ?_
    cases applyBinaryOperator op lv rv <;> exact ResPres.pure _ (StatePres.refl _)
  -- unary
  · intro fuel st op operand ih
    simp only [evaluateExpression]
    refine ResPres.bind ih fun v st1 _ => ?_
    cases applyUnaryOperator op v <;> exact ResPres.pure _ (StatePres.refl _)
  -- input, empty stdin
  · intro fuel st prompt hin
    simp only [evaluateExpression, hin]
    exact ResPres.pure _ ⟨rfl, id⟩
  -- input, line available
  · intro fuel st prompt line rest hin
    simp only [evaluateExpression, hin]
    exact ResPres.pure _ ⟨rfl, id⟩
  -- expression-level function call
  · intro fuel st name args ih
    simp only [evaluateExpression]
    exact ih
  -- call: unknown function
  · intro fuel st name args hlook
    simp only [callFunction, hlook]
    exact ResPres.pure _ (StatePres.refl st)
  -- call: arity mismatch
  · intro fuel st name args params body hlook hlen
    simp only [callFunction, hlook]
    rw [if_pos hlen]
    exact ResPres.pure _ (StatePres.refl st)
  -- call: main path
  · intro fuel st name args params body hlook hlen ihArgs ihBody
    simp only [callFunction, hlook]
    rw [if_neg hlen]
    refine ResPres.bind ihArgs fun _ stA _ => ?_
    cases fuel with
    | zero => exact ResPres.fuelOut _
    | succ f =>
      refine ResPres.bind (ihBody stA) fun flow stB _ => ?_
      cases flow with
      | none => exact ResPres.pure _ (StatePres.restoreParams (StatePres.refl _) _)
      | some fl =>
        cases fl with
        | ret v => exact ResPres.pure _ (StatePres.restoreParams (StatePres.refl _) _)
  -- statement list: nil
  · intro fuel st
    simp only [executeStatements]
    exact ResPres.pure _ (StatePres.refl st)
  -- statement list: cons
  · intro fuel st s rest ih1 ih2
    simp only [executeStatements]
    refine ResPres.bind ih1 fun flow st1 _ => ?_
    cases flow with
    | some fl => exact ResPres.pure _ (StatePres.refl _)
    | none => exact ih2 st1
  -- return without expression
  · intro fuel st
    simp only [executeStatement]
    exact ResPres.pure _ (StatePres.refl st)
  -- return with expression
  · intro fuel st e ih
    simp only [executeStatement]
    refine ResPres.bind ih fun v st1 _ => ?_
    exact ResPres.pure _ (StatePres.refl _)
  -- variable declaration
  · intro fuel st name dataType value ih
    simp only [executeStatement]
    refine ResPres.bind ih fun v st1 _ => ?_
    exact ResPres.pure _ (StatePres.setVar (StatePres.refl _) name v)
  -- assignment to unbound name
  · intro fuel st name value hlook
    simp only [executeStatement, hlook]
    exact ResPres.pure _ (StatePres.refl st)
  -- assignment to bound name
  · intro fuel st name value val hlook ih
    simp only [executeStatement, hlook]
    refine ResPres.bind ih fun v st1 _ => ?_
    exact ResPres.pure _ (StatePres.setVar (StatePres.refl _) name v)
  -- statement-level function call
  · intro fuel st name args ih
    simp only [executeStatement]
    refine ResPres.bind ih fun _ st1 _ => ?_
    exact ResPres.pure _ (StatePres.refl _)
  -- conditional
  · intro fuel st condition thenBranch elseBranch ihc ihThen ihElse
    simp only [executeStatement]
    refine ResPres.bind ihc fun cv st1 _ => ?_
    cases cv with
    | boolean b =>
      cases b with
      | true => simpa using ihThen st1
      | false =>
        cases helse : elseBranch with
        | some stmts =>
          simp only [helse] at ihElse
          simpa using ihElse st1
        | none => simp only [Bool.false_eq_true, if_false, helse]; exact ResPres.pure _ (StatePres.refl _)
    | string s => exact ResPres.pure _ (StatePres.refl _)
    | integer i => exact ResPres.pure _ (StatePres.refl _)
    | float f => exact ResPres.pure _ (StatePres.refl _)
    | char c => exact ResPres.pure _ (StatePres.refl _)
    | void => exact ResPres.pure _ (StatePres.refl _)
  -- for loop
  · intro fuel st count body ih
    simp only [executeStatement]
    exact ih
  -- while loop, fuel exhausted
  · intro st condition body
    simp only [executeStatement]
    exact ResPres.fuelOut _
  -- while loop, fuel available
  · intro st condition body f ihc ihBody ihNext
    simp only [executeStatement]
    refine ResPres.bind ihc fun cv st1 _ => ?_
    cases cv with
    | boolean b =>
      cases b with
      | true =>
        simp only [if_true]
        refine ResPres.bind (ihBody st1) fun flow st2 _ => ?_
        cases flow with
        | some fl => exact ResPres.pure _ (StatePres.refl _)
        | none => exact ihNext st2
      | false => exact ResPres.pure _ (StatePres.refl _)
    | string s => exact ResPres.pure _ (StatePres.refl _)
    | integer i => exact ResPres.pure _ (StatePres.refl _)
    | float f => exact ResPres.pure _ (StatePres.refl _)
    | char c => exact ResPres.pure _ (StatePres.refl _)
    | void => exact ResPres.pure _ (StatePres.refl _)
  -- speak
  · intro fuel st e ih
    simp only [executeStatement]
    refine ResPres.bind ih fun v st1 _ => ?_
    exact ResPres.pure _ ⟨rfl, id⟩
  -- main block
  · intro fuel st statements ih
    simp only [executeStatement]
    exact ih
  -- function declaration
  · intro fuel st name parameters body
    simp only [executeStatement]
    exact ResPres.pure _ (StatePres.refl st)
  -- for iterations: zero
  · intro fuel st body
    simp only [runForLoop]
    exact ResPres.pure _ (StatePres.refl st)
  -- for iterations: succ
  · intro fuel st body f ihB ihRest
    simp only [runForLoop]
    refine ResPres.bind ihB fun flow st1 _ => ?_
    cases flow with
    | some fl => exact ResPres.pure _ (StatePres.refl _)
    | none => exact ihRest st1
  -- argument binding: cons
  · intro fuel st p ps a rest ihA ihRest
    simp only [bindArguments]
    refine ResPres.bind ihA fun v st1 _ => ?_
    exact ResPres.weaken (StatePres.setVar (StatePres.refl st1) p v) (ihRest v st1)
  -- argument binding: base
  · intro fuel st params args hshape
    cases params with
    | nil =>
      simp only [bindArguments]
      exact ResPres.pure _ (StatePres.refl st)
    | cons p ps =>
      cases args with
      | nil =>
        simp only [bindArguments]
        exact ResPres.pure _ (StatePres.refl st)
      | cons a rest => exact (hshape p ps a rest rfl rfl).elim

/-!
Claim C1.
-/

/-- Claim C1 (code bug): the claim states that `==`/`!=` implement
value-kind-aware structural equality (with cross-kind comparisons unequal,
`!=` the negation of `==`).  In the code the match patterns `Equals`,
`NotEquals`, `And` and `GreaterEqual` are wildcard bindings, so on two
integers both `==` and `!=` compute `l >= r`, on two booleans both compute
`l && r`, and on a cross-kind pair `!=` computes `l == r` (hence `false`,
not `true`).  This theorem evaluates the embedded
`apply_binary_operator` at such failing inputs. -/
theorem c1_structural_equality_divergence :
    applyBinaryOperator .equal (.integer 3) (.integer 2) = .ok (.boolean true) ∧
    applyBinaryOperator .notEqual (.integer 2) (.integer 2) = .ok (.boolean true) ∧
    applyBinaryOperator .equal (.boolean false) (.boolean false) = .ok (.boolean false) ∧
    applyBinaryOperator .notEqual (.integer 1) (.string "a") = .ok (.boolean false) :=
  ⟨rfl, rfl, rfl, rfl⟩

/-!
Claim C2.
-/

/-- Claim C2 (code bug): the claim states that every (operator, kind,
kind) triple outside the supported list fails with an invalid-operation
error, in particular `>`/`<` on non-integer operands.  In the code the
final fallback arm is unreachable (the `Equals` pattern before it is a
wildcard binding matching every operator), so unsupported combinations
evaluate to a boolean instead of erroring: `>` on two floats yields the
structural equality of the operands, `<` on text and integer yields
`false`, and `+` on two booleans yields `l && r`. -/
theorem c2_invalid_operation_divergence :
    applyBinaryOperator .greater (.float 1) (.float 2) = .ok (.boolean false) ∧
    applyBinaryOperator .less (.string "a") (.integer 1) = .ok (.boolean false) ∧
    applyBinaryOperator .add (.boolean true) (.boolean true) = .ok (.boolean true) :=
  ⟨rfl, rfl, rfl⟩

/-!
Claim C5.
-/

/-- Claim C5 (confirmed): a division whose right operand is the integer
zero or the float zero fails with the dedicated division-by-zero error,
for every left operand (of any kind and value); the zero check precedes
the division, so no quotient is ever produced for a zero divisor. -/
theorem c5_division_by_zero (l : Value) :
    applyBinaryOperator .divide l (.integer 0) = .error .divisionByZero ∧
    applyBinaryOperator .divide l (.float 0) = .error .divisionByZero := by
  cases l <;> exact ⟨rfl, rfl⟩

/-!
Claim C6.
-/

/-- Claim C6 (confirmed): a counted loop with count `n` runs its body
exactly `n` times when `n > 0` and zero times (state unchanged, no
signal) when `n ≤ 0`; a control-flow signal produced by the body stops
the loop immediately and propagates: the execution of `for n` is one
body execution followed by the execution of `for (n-1)` unless the body
produced a signal or an error. -/
theorem c6_counted_loop (fuel : Nat) (st : InterpState) (count : Int)
    (body : List Statement) :
    executeStatement fuel st (.forLoop count body) =
      if count ≤ 0 then some (.ok none, st)
      else
        bindRes (executeStatements fuel st body) fun flow st1 =>
          match flow with
          | some fl => some (.ok (some fl), st1)
          | none => executeStatement fuel st1 (.forLoop (count - 1) body) := by
  by_cases h : count ≤ 0
  · have h0 : count.toNat = 0 := by omega
    simp only [executeStatement, h0, runForLoop, if_pos h]
  · have h1 : count.toNat = (count - 1).toNat + 1 := by omega
    simp only [executeStatement, h1, runForLoop, if_neg h]

/-!
Claim C9.
-/

/-- Claim C9 (confirmed): an assignment whose target name is unbound
raises the undefined-variable error before evaluating the right-hand
side: the result is the error with the interpreter state *exactly* as it
was (both tables, stdin and stdout untouched), whatever the right-hand
side expression is. -/
theorem c9_assignment_undefined_before_rhs (fuel : Nat) (st : InterpState)
    (name : String) (value : Expression)
    (h : lookupTable st.vars name = none) :
    executeStatement fuel st (.assignment name value) =
      some (.error (.undefinedVariable name), st) := by
  simp only [executeStatement, h]

/-- Witness for C9 at a concrete input: the right-hand side is a call to
an undefined function whose evaluation would raise a *different* error
(and any call could print or read); the assignment nevertheless fails
with undefined-variable and leaves the state untouched. -/
theorem c9_assignment_witness :
    lookupTable (initialState []).vars "y" = none ∧
    executeStatement 5 (initialState []) (.assignment "y" (.functionCall "boom" [])) =
      some (.error (.undefinedVariable "y"), initialState []) :=
  ⟨rfl, c9_assignment_undefined_before_rhs 5 (initialState []) "y" (.functionCall "boom" []) rfl⟩

/-!
Claim C7: left-associative chain lowering.
-/

/-- Specification-side description of the operator/operand chain: each
operator token resolved with `BinaryOperator::from_str` and each operand
lowered independently (this is the datum the left-fold of claim C7 is
stated over). -/
def chainOperands : List (String × PExpr) →
    Except ValyrianError (List (BinaryOperator × Expression))
  | [] => .ok []
  | (opStr, node) :: more =>
    match BinaryOperator.fromStr opStr with
    | none => .error (.parseError ("Unknown binary operator: " ++ opStr))
    | some op =>
      match parseExpression node with
      | .error e => .error e
      | .ok right =>
        match chainOperands more with
        | .error e => .error e
        | .ok pairs => .ok ((op, right) :: pairs)

theorem parseBinaryChain_foldl :
    ∀ (rest : List (String × PExpr)) (pairs : List (BinaryOperator × Expression))
      (acc : Expression), chainOperands rest = .ok pairs →
      parseBinaryChain acc rest =
        .ok (pairs.foldl (fun a pr => Expression.binary a pr.1 pr.2) acc) := by
  intro rest
  induction rest with
  | nil =>
    intro pairs acc h
    simp only [chainOperands] at h
    obtain rfl := (by simpa using h : ([] : List (BinaryOperator × Expression)) = pairs).symm
    simp [parseBinaryChain]
  | cons pr more ih =>
    intro pairs acc h
    obtain ⟨opStr, node⟩ := pr
    simp only [chainOperands] at h
    cases hop : BinaryOperator.fromStr opStr with
    | none => rw [hop] at h; simp at h
    | some op =>
      rw [hop] at h
      cases hpe : parseExpression node with
      | error e => rw [hpe] at h; simp at h
      | ok right =>
        rw [hpe] at h
        cases hco : chainOperands more with
        | error e => rw [hco] at h; simp at h
        | ok prs =>
          rw [hco] at h
          obtain rfl := (by simpa using h : (op, right) :: prs = pairs).symm
          simp only [parseBinaryChain, hop, hpe, List.foldl]
          exact ih prs (Expression.binary acc op right) hco

/-- Claim C7 (confirmed): lowering a binary-expression parse node is the
left-associated fold of its operand/operator chain: starting from the
lowered first operand, consume the operator/operand pairs left to right
(regardless of conventional precedence).  A single-operand chain (empty
rest) lowers to the first operand unchanged (the fold over `[]`). -/
theorem c7_left_fold_lowering (first : PExpr) (rest : List (String × PExpr))
    (e0 : Expression) (pairs : List (BinaryOperator × Expression))
    (h1 : parseExpression first = .ok e0)
    (h2 : chainOperands rest = .ok pairs) :
    parseExpression (.binaryExpr first rest) =
      .ok (pairs.foldl (fun a pr => Expression.binary a pr.1 pr.2) e0) := by
  simp only [parseExpression, h1]
  exact parseBinaryChain_foldl rest pairs e0 h2

/-- Witness for C7 at a concrete chain `a + b * c`: the result is the
left fold `(a + b) * c`, ignoring arithmetic precedence. -/
theorem c7_left_fold_witness :
    parseExpression (.identifier "a") = .ok (.identifier "a") ∧
    chainOperands [("+", .identifier "b"), ("*", .identifier "c")] =
      .ok [(.add, .identifier "b"), (.multiply, .identifier "c")] ∧
    parseExpression (.binaryExpr (.identifier "a")
        [("+", .identifier "b"), ("*", .identifier "c")]) =
      .ok (.binary (.binary (.identifier "a") .add (.identifier "b")) .multiply
        (.identifier "c")) :=
  ⟨by simp [parseExpression],
   by simp [chainOperands, parseExpression, BinaryOperator.fromStr],
   c7_left_fold_lowering (.identifier "a")
     [("+", .identifier "b"), ("*", .identifier "c")] (.identifier "a")
     [(.add, .identifier "b"), (.multiply, .identifier "c")]
     (by simp [parseExpression])
     (by simp [chainOperands, parseExpression, BinaryOperator.fromStr])⟩

/-!
Claim C3: return-signal propagation.
-/

/-- A program whose main block returns and then speaks: the claim says the
speak statement is never executed. -/
def progReturnThenSpeak : Program :=
  ⟨[.mainBlock [.ret none, .speak (.literal (.string "after"))]]⟩

/-- Counterexample to claim C3 as stated: in `interpret`, the top-level
main-block loop (lines 34-38) executes each nested statement with `?`,
which discards the returned control-flow signal, so a return signal
reaching the top of a top-level main block does *not* end the block: the
remaining statements still execute.  Running `progReturnThenSpeak`
produces the output `after` of the statement that follows the return. -/
theorem c3_counterexample :
    interpret 1 (initialState []) progReturnThenSpeak =
      some (.ok (), { vars := [], functions := [], input := [],
                      output := ["after"] }) := by
  simp [interpret, registerFunctions, runTopStatements, runTopMainBlock,
    executeStatement, evaluateExpression, bindRes, literalValue, renderValue,
    initialState, progReturnThenSpeak]

/-- Claim C3 as amended (the counterexample forces only the top-level
part to change): a return signal produced by a nested statement
propagates unchanged through statement lists, nested main blocks,
conditional branches, loop bodies and while bodies, and at a
function-call boundary it becomes the call result; but a return signal
reaching `interpret`'s own loops — from a top-level statement or from a
statement directly inside a top-level main block — is discarded and the
remaining statements of that block still execute, without error. -/
theorem c3_return_propagation_amended :
    (∀ fuel st s rest flow st1,
       executeStatement fuel st s = some (.ok (some flow), st1) →
       executeStatements fuel st (s :: rest) = some (.ok (some flow), st1)) ∧
    (∀ fuel st stmts flow st1,
       executeStatements fuel st stmts = some (.ok (some flow), st1) →
       executeStatement fuel st (.mainBlock stmts) = some (.ok (some flow), st1)) ∧
    (∀ fuel st cond thenB elseB flow st1 st2,
       evaluateExpression fuel st cond = some (.ok (.boolean true), st1) →
       executeStatements fuel st1 thenB = some (.ok (some flow), st2) →
       executeStatement fuel st (.conditional cond thenB elseB) =
         some (.ok (some flow), st2)) ∧
    (∀ fuel st count body flow st1, 0 < count →
       executeStatements fuel st body = some (.ok (some flow), st1) →
       executeStatement fuel st (.forLoop count body) = some (.ok (some flow), st1)) ∧
    (∀ f st cond body flow st1 st2,
       evaluateExpression (f + 1) st cond = some (.ok (.boolean true), st1) →
       executeStatements (f + 1) st1 body = some (.ok (some flow), st2) →
       executeStatement (f + 1) st (.whileLoop cond body) =
         some (.ok (some flow), st2)) ∧
    (∀ f st name args params body v stA stB,
       lookupTable st.functions name = some (params, body) →
       args.length = params.length →
       bindArguments (f + 1) st params args = some (.ok (), stA) →
       executeStatements f stA body = some (.ok (some (.ret v)), stB) →
       callFunction (f + 1) st name args =
         some (.ok v, restoreParams (snapshotParams params st) stB)) ∧
    (∀ fuel st s rest flow st1,
       executeStatement fuel st s = some (.ok (some flow), st1) →
       runTopMainBlock fuel st (s :: rest) = runTopMainBlock fuel st1 rest) ∧
    (∀ fuel st s rest flow st1,
       (∀ l, s ≠ .mainBlock l) →
       executeStatement fuel st s = some (.ok (some flow), st1) →
       runTopStatements fuel st (s :: rest) = runTopStatements fuel st1 rest) := by
  refine ⟨?_, ?_, ?_, ?_, ?_, ?_, ?_, ?_⟩
  · intro fuel st s rest flow st1 h
    simp only [executeStatements, h, bindRes]
  · intro fuel st stmts flow st1 h
    simp only [executeStatement]
    exact h
  · intro fuel st cond thenB elseB flow st1 st2 hc hb
    simp only [executeStatement, hc, bindRes, if_true]
    exact hb
  · intro fuel st count body flow st1 hpos hb
    have h1 : count.toNat = (count - 1).toNat + 1 := by omega
    simp only [executeStatement, h1, runForLoop, hb, bindRes]
  · intro f st cond body flow st1 st2 hc hb
    simp only [executeStatement, hc, bindRes, hb, if_true]
  · intro f st name args params body v stA stB hlook hlen hbind hexec
    simp only [callFunction, hlook]
    rw [if_neg (fun hc => hc hlen)]
    rw [hbind]
    simp only [bindRes, hexec]
  · intro fuel st s rest flow st1 h
    simp only [runTopMainBlock, h, bindRes]
  · intro fuel st s rest flow st1 hne h
    cases s with
    | mainBlock l => exact absurd rfl (hne l)
    | functionDeclaration n p b => simp [executeStatement] at h
    | variableDeclaration n d val => simp only [runTopStatements, h, bindRes]
    | functionCall n a => simp only [runTopStatements, h, bindRes]
    | assignment n val => simp only [runTopStatements, h, bindRes]
    | conditional c t e => simp only [runTopStatements, h, bindRes]
    | forLoop c b => simp only [runTopStatements, h, bindRes]
    | whileLoop c b => simp only [runTopStatements, h, bindRes]
    | ret v => simp only [runTopStatements, h, bindRes]
    | speak e => simp only [runTopStatements, h, bindRes]

/-- Witness for the amended C3 at concrete inputs: a return inside a
*nested* main block propagates out of it unchanged, whereas a return
statement at the head of a top-level main block is discarded and the
following statements still run. -/
theorem c3_return_propagation_witness :
    executeStatement 1 (initialState []) (.ret none) =
      some (.ok (some (.ret Value.void)), initialState []) ∧
    executeStatements 1 (initialState [])
        [.ret none, .speak (.literal (.string "after"))] =
      some (.ok (some (.ret Value.void)), initialState []) ∧
    executeStatement 1 (initialState [])
        (.mainBlock [.ret none, .speak (.literal (.string "after"))]) =
      some (.ok (some (.ret Value.void)), initialState []) ∧
    runTopMainBlock 1 (initialState [])
        [.ret none, .speak (.literal (.string "after"))] =
      runTopMainBlock 1 (initialState []) [.speak (.literal (.string "after"))] := by
  have h1 : executeStatement 1 (initialState []) (.ret none) =
      some (.ok (some (.ret Value.void)), initialState []) := by
    simp [executeStatement]
  have h2 := c3_return_propagation_amended.1 1 (initialState [])
    (.ret none) [.speak (.literal (.string "after"))] (.ret Value.void)
    (initialState []) h1
  exact ⟨h1, h2,
    c3_return_propagation_amended.2.1 1 (initialState [])
      [.ret none, .speak (.literal (.string "after"))] (.ret Value.void)
      (initialState []) h2,
    c3_return_propagation_amended.2.2.2.2.2.2.1 1 (initialState [])
      (.ret none) [.speak (.literal (.string "after"))] (.ret Value.void)
      (initialState []) h1⟩

/-!
Claims C4 and C8: function-call frame effect.
-/

theorem restoreParams_cons (p : String) (w : Option Value)
    (rest : List (String × Option Value)) (st1 : InterpState) :
    restoreParams ((p, w) :: rest) st1 =
      restoreParams rest
        (match w with
         | some v => { st1 with vars := insertTable st1.vars p v }
         | none => { st1 with vars := removeTable st1.vars p }) := rfl

theorem snapshotParams_keys (params : List String) (st : InterpState) :
    (snapshotParams params st).map Prod.fst = params := by
  induction params with
  | nil => rfl
  | cons q qs ih =>
    simp only [snapshotParams, List.map_cons] at ih ⊢
    rw [ih]

/-- Restoring a snapshot does not touch names outside the snapshot. -/
theorem lookup_restoreParams_not_mem (oldVars : List (String × Option Value))
    (st1 : InterpState) (q : String) (h : q ∉ oldVars.map Prod.fst) :
    lookupTable (restoreParams oldVars st1).vars q = lookupTable st1.vars q := by
  induction oldVars generalizing st1 with
  | nil => rfl
  | cons e rest ih =>
    obtain ⟨p, w⟩ := e
    simp only [List.map_cons, List.mem_cons, not_or] at h
    have hpq : p ≠ q := fun hc => h.1 hc.symm
    cases w with
    | some v =>
      rw [restoreParams_cons, ih _ h.2]
      exact lookupTable_insertTable_ne _ _ _ _ hpq
    | none =>
      rw [restoreParams_cons, ih _ h.2]
      exact lookupTable_removeTable_ne _ _ _ hpq

/-- Restoring the snapshot of `params` taken in `st0` rebinds every
parameter name to its `st0` value (or removes it if it was absent). -/
theorem lookup_restoreParams_snapshot_mem (params : List String)
    (st0 : InterpState) :
    ∀ (st1 : InterpState), WFTable st1.vars → ∀ p, p ∈ params →
      lookupTable (restoreParams (snapshotParams params st0) st1).vars p =
        lookupTable st0.vars p := by
  induction params with
  | nil =>
    intro st1 _ p hp
    simp at hp
  | cons q qs ih =>
    intro st1 hwf p hp
    have hsnap : snapshotParams (q :: qs) st0 =
        (q, lookupTable st0.vars q) :: snapshotParams qs st0 := rfl
    by_cases hmem : p ∈ qs
    · rw [hsnap, restoreParams_cons]
      cases hw : lookupTable st0.vars q with
      | some v =>
        exact ih { st1 with vars := insertTable st1.vars q v }
          (WFTable_insertTable _ _ _ hwf) p hmem
      | none =>
        exact ih { st1 with vars := removeTable st1.vars q }
          (WFTable_removeTable _ _ hwf) p hmem
    · have hpq : p = q := by
        rcases List.mem_cons.mp hp with h | h
        · exact h
        · exact absurd h hmem
      subst hpq
      rw [hsnap, restoreParams_cons]
      cases hw : lookupTable st0.vars p with
      | some v =>
        rw [lookup_restoreParams_not_mem _ _ _ (by
          rw [snapshotParams_keys]; exact hmem)]
        exact lookupTable_insertTable_self _ _ _
      | none =>
        rw [lookup_restoreParams_not_mem _ _ _ (by
          rw [snapshotParams_keys]; exact hmem)]
        exact lookupTable_removeTable_self _ _ hwf

/-- Core specification of a successful `call_function`: shared by the
claims about the call frame effect.  A successful call decomposes into
argument binding, body execution one fuel level deeper, and snapshot
restoration; every parameter ends with its pre-call binding (or absence),
every other name keeps its value from the post-body state, and a body
that falls through yields void. -/
theorem callFunction_ok_spec (fuel : Nat) (st : InterpState) (fname : String)
    (args : List Expression) (params : List String) (body : List Statement)
    (v : Value) (st1 : InterpState)
    (hwf : WFTable st.vars)
    (hlook : lookupTable st.functions fname = some (params, body))
    (hcall : callFunction fuel st fname args = some (.ok v, st1)) :
    (∀ p ∈ params, lookupTable st1.vars p = lookupTable st.vars p) ∧
    ∃ f stA stB flow, fuel = f + 1 ∧
      bindArguments fuel st params args = some (.ok (), stA) ∧
      executeStatements f stA body = some (.ok flow, stB) ∧
      st1 = restoreParams (snapshotParams params st) stB ∧
      (∀ q, q ∉ params → lookupTable st1.vars q = lookupTable stB.vars q) ∧
      (flow = none → v = Value.void) ∧
      (∀ rv, flow = some (.ret rv) → v = rv) := by
  simp only [callFunction, hlook] at hcall
  by_cases hlen : args.length ≠ params.length
  · rw [if_pos hlen] at hcall
    simp at hcall
  · rw [if_neg hlen] at hcall
    cases hargs : bindArguments fuel st params args with
    | none => rw [hargs] at hcall; simp [bindRes] at hcall
    | some pr =>
      obtain ⟨r, stA⟩ := pr
      cases r with
      | error e => rw [hargs] at hcall; simp [bindRes] at hcall
      | ok u =>
        obtain ⟨⟩ := u
        rw [hargs] at hcall
        simp only [bindRes] at hcall
        cases fuel with
        | zero => simp at hcall
        | succ f =>
          dsimp only [] at hcall
          cases hexec : executeStatements f stA body with
          | none => rw [hexec] at hcall; simp [bindRes] at hcall
          | some pr2 =>
            obtain ⟨r2, stB⟩ := pr2
            cases r2 with
            | error e => rw [hexec] at hcall; simp [bindRes] at hcall
            | ok flow =>
              rw [hexec] at hcall
              simp only [bindRes] at hcall
              -- well-formedness of the post-body variable table
              have hwfA : WFTable stA.vars :=
                ((execPreservation.2.2.2.2.2 (f + 1) st params args)
                  (.ok ()) stA hargs).2 hwf
              have hwfB : WFTable stB.vars :=
                ((execPreservation.2.2.1 f stA body) (.ok flow) stB hexec).2 hwfA
              have hrest : ∀ st2, st2 = restoreParams (snapshotParams params st) stB →
                  (∀ p ∈ params, lookupTable st2.vars p = lookupTable st.vars p) ∧
                  (∀ q, q ∉ params → lookupTable st2.vars q = lookupTable stB.vars q) := by
                intro st2 h2
                subst h2
                constructor
                · intro p hp
                  exact lookup_restoreParams_snapshot_mem params st stB hwfB p hp
                · intro q hq
                  exact lookup_restoreParams_not_mem _ _ _ (by
                    rw [snapshotParams_keys]; exact hq)
              cases flow with
              | none =>
                obtain ⟨rfl, rfl⟩ :=
                  (by simpa using hcall : Value.void = v ∧
                    restoreParams (snapshotParams params st) stB = st1)
                refine ⟨(hrest _ rfl).1, f, stA, stB, none, rfl, rfl, hexec,
                  rfl, (hrest _ rfl).2, fun _ => rfl, fun rv hrv => (by cases hrv)⟩
              | some fl =>
                obtain ⟨rv⟩ := fl
                obtain ⟨rfl, rfl⟩ :=
                  (by simpa using hcall : rv = v ∧
                    restoreParams (snapshotParams params st) stB = st1)
                refine ⟨(hrest _ rfl).1, f, stA, stB, some (.ret rv), rfl, rfl,
                  hexec, rfl, (hrest _ rfl).2, fun hc => (by cases hc),
                  fun rv2 hrv => (by cases hrv; rfl)⟩

/-- Claim C4 (confirmed): a function call that completes without error
restores every parameter name to its pre-call binding (or absence), keeps
every other global exactly as the callee body left it, and yields void
when the body fell through without returning.  (The `WFTable` hypothesis
says the variable table has at most one binding per name, which holds of
every table an actual `HashMap` can denote.) -/
theorem c4_parameter_restoration (fuel : Nat) (st : InterpState)
    (fname : String) (args : List Expression) (params : List String)
    (body : List Statement) (v : Value) (st1 : InterpState)
    (hwf : WFTable st.vars)
    (hlook : lookupTable st.functions fname = some (params, body))
    (hcall : callFunction fuel st fname args = some (.ok v, st1)) :
    (∀ p ∈ params, lookupTable st1.vars p = lookupTable st.vars p) ∧
    ∃ f stA stB flow, fuel = f + 1 ∧
      bindArguments fuel st params args = some (.ok (), stA) ∧
      executeStatements f stA body = some (.ok flow, stB) ∧
      st1 = restoreParams (snapshotParams params st) stB ∧
      (∀ q, q ∉ params → lookupTable st1.vars q = lookupTable stB.vars q) ∧
      (flow = none → v = Value.void) ∧
      (∀ rv, flow = some (.ret rv) → v = rv) :=
  callFunction_ok_spec fuel st fname args params body v st1 hwf hlook hcall

/-- Concrete function body for the C4 witness: mutate the global `z`,
then return the parameter `a`. -/
def exampleCallBody : List Statement :=
  [.assignment "z" (.literal (.integer 1)), .ret (some (.identifier "a"))]

/-- Concrete pre-call state for the C4 witness: globals `a = 7` and
`z = 0`, one function `f(a)`. -/
def exampleCallState : InterpState :=
  { vars := [("a", .integer 7), ("z", .integer 0)],
    functions := [("f", (["a"], exampleCallBody))], input := [], output := [] }

/-- State after `f(5)`: the parameter `a` is restored to `7`, the global
mutation `z = 1` persists. -/
def exampleCallFinal : InterpState :=
  { vars := [("a", .integer 7), ("z", .integer 1)],
    functions := [("f", (["a"], exampleCallBody))], input := [], output := [] }

theorem c4_parameter_restoration_witness :
    WFTable exampleCallState.vars ∧
    lookupTable exampleCallState.functions "f" = some (["a"], exampleCallBody) ∧
    callFunction 1 exampleCallState "f" [.literal (.integer 5)] =
      some (.ok (.integer 5), exampleCallFinal) ∧
    ((∀ p ∈ ["a"], lookupTable exampleCallFinal.vars p =
        lookupTable exampleCallState.vars p) ∧
     ∃ f stA stB flow, (1 : Nat) = f + 1 ∧
       bindArguments 1 exampleCallState ["a"] [.literal (.integer 5)] =
         some (.ok (), stA) ∧
       executeStatements f stA exampleCallBody = some (.ok flow, stB) ∧
       exampleCallFinal = restoreParams (snapshotParams ["a"] exampleCallState) stB ∧
       (∀ q, q ∉ ["a"] → lookupTable exampleCallFinal.vars q =
         lookupTable stB.vars q) ∧
       (flow = none → Value.integer 5 = Value.void) ∧
       (∀ rv, flow = some (.ret rv) → Value.integer 5 = rv)) := by
  have hwf : WFTable exampleCallState.vars := by
    simp [WFTable, exampleCallState]
  have hcall : callFunction 1 exampleCallState "f" [.literal (.integer 5)] =
      some (.ok (.integer 5), exampleCallFinal) := by
    simp [callFunction, bindArguments, evaluateExpression, executeStatements,
      executeStatement, bindRes, lookupTable, insertTable, setVar,
      snapshotParams, restoreParams, literalValue, exampleCallState,
      exampleCallBody, exampleCallFinal]
  exact ⟨hwf, rfl, hcall,
    c4_parameter_restoration 1 exampleCallState "f" [.literal (.integer 5)]
      ["a"] exampleCallBody (.integer 5) exampleCallFinal hwf rfl hcall⟩

/-- Claim C8 (confirmed): in `call_function` the argument-count check
precedes all argument evaluation (an arity mismatch fails with the
argument-mismatch error leaving the state untouched, whatever the
argument expressions are); arguments are then evaluated left to right
with each parameter bound before the next argument is evaluated, so an
argument reading an earlier parameter of the same call sees the value
just bound for it; and the snapshot that the restore uses is taken
before any argument is evaluated (a successful call restores the first
parameter to its value from the state *before* argument evaluation). -/
theorem c8_argument_evaluation_order :
    (∀ fuel st name args params body,
       lookupTable st.functions name = some (params, body) →
       args.length ≠ params.length →
       callFunction fuel st name args = some (.error .argumentMismatch, st)) ∧
    (∀ fuel st p1 p2 ps a1 rest v1 st1,
       evaluateExpression fuel st a1 = some (.ok v1, st1) →
       bindArguments fuel st (p1 :: p2 :: ps)
           (a1 :: .identifier p1 :: rest) =
         bindArguments fuel (setVar (setVar st1 p1 v1) p2 v1) ps rest) ∧
    (∀ fuel st name args p ps body v st1,
       WFTable st.vars →
       lookupTable st.functions name = some (p :: ps, body) →
       callFunction fuel st name args = some (.ok v, st1) →
       lookupTable st1.vars p = lookupTable st.vars p) := by
  refine ⟨?_, ?_, ?_⟩
  · intro fuel st name args params body hlook hlen
    simp only [callFunction, hlook]
    rw [if_pos hlen]
  · intro fuel st p1 p2 ps a1 rest v1 st1 h
    simp only [bindArguments, h, bindRes, evaluateExpression, setVar,
      lookupTable_insertTable_self]
  · intro fuel st name args p ps body v st1 hwf hlook hcall
    exact (callFunction_ok_spec fuel st name args (p :: ps) body v st1 hwf
      hlook hcall).1 p (List.mem_cons_self p ps)

/-- Concrete caller state for the C8 witness: the global `x` is `99`
before the call. -/
def exampleBindState : InterpState :=
  { vars := [("x", .integer 99)], functions := [], input := [], output := [] }

/-- Witness for C8 at a concrete input: binding parameters `x, y` to
arguments `5, x` binds `y` to the just-bound `5`, not to the caller's
prior `x = 99`. -/
theorem c8_argument_evaluation_witness :
    evaluateExpression 1 exampleBindState (.literal (.integer 5)) =
      some (.ok (.integer 5), exampleBindState) ∧
    bindArguments 1 exampleBindState ["x", "y"]
        [.literal (.integer 5), .identifier "x"] =
      bindArguments 1
        (setVar (setVar exampleBindState "x" (.integer 5)) "y" (.integer 5))
        [] [] ∧
    lookupTable (setVar (setVar exampleBindState "x" (.integer 5)) "y"
        (.integer 5)).vars "y" = some (.integer 5) := by
  have h : evaluateExpression 1 exampleBindState (.literal (.integer 5)) =
      some (.ok (.integer 5), exampleBindState) := by
    simp [evaluateExpression, literalValue]
  refine ⟨h, ?_, ?_⟩
  · exact c8_argument_evaluation_order.2.1 1 exampleBindState "x" "y" []
      (.literal (.integer 5)) [] (.integer 5) exampleBindState h
  · simp [setVar, insertTable, lookupTable, exampleBindState]

/-!
Claim C10: the function table is fixed at registration time.
-/

/-- A program whose only function declaration is nested inside the main
block: the registration pass never sees it, so calling it fails. -/
def progNestedDeclaration : Program :=
  ⟨[.mainBlock [.functionDeclaration "g" [] [], .functionCall "g" []]]⟩

/-- Claim C10 (confirmed): statement and expression execution never
mutate the function table (`execute_statement` treats a nested function
declaration as a pure no-op), so the table is exactly what the
registration pass of `interpret` built from the *top-level* statements;
a function declared only inside a main block is never registered and
calling it fails with the undefined-function error. -/
theorem c10_function_table_constant :
    (∀ fuel st s out st1, executeStatement fuel st s = some (out, st1) →
       st1.functions = st.functions) ∧
    (∀ fuel st e out st1, evaluateExpression fuel st e = some (out, st1) →
       st1.functions = st.functions) ∧
    (∀ fuel st name params body,
       executeStatement fuel st (.functionDeclaration name params body) =
         some (.ok none, st)) ∧
    interpret 1 (initialState []) progNestedDeclaration =
      some (.error (.undefinedFunction "g"), initialState []) := by
  refine ⟨?_, ?_, ?_, ?_⟩
  · intro fuel st s out st1 h
    exact ((execPreservation.2.2.2.1 fuel st s) out st1 h).1
  · intro fuel st e out st1 h
    exact ((execPreservation.1 fuel st e) out st1 h).1
  · intro fuel st name params body
    simp [executeStatement]
  · simp [interpret, registerFunctions, runTopStatements, runTopMainBlock,
      executeStatement, callFunction, bindRes, lookupTable, initialState,
      progNestedDeclaration]

/-- Witness for C10 at a concrete statement execution. -/
theorem c10_function_table_witness :
    executeStatement 1 (initialState []) (.speak (.literal (.string "hi"))) =
      some (.ok none,
        { vars := [], functions := [], input := [], output := ["hi"] }) ∧
    ({ vars := [], functions := [], input := [], output := ["hi"] }
        : InterpState).functions = (initialState []).functions := by
  have h : executeStatement 1 (initialState [])
      (.speak (.literal (.string "hi"))) =
      some (.ok none,
        { vars := [], functions := [], input := [], output := ["hi"] }) := by
    simp [executeStatement, evaluateExpression, bindRes, literalValue,
      renderValue, initialState]
  exact ⟨h, c10_function_table_constant.1 1 (initialState []) _ _ _ h⟩

end MidValyrian
